import Mathlib

/-!
Verification development for the DNA-Identifier repository.

The repository has two scanners for the longest run of consecutive,
non-overlapping occurrences of a repeat unit in a DNA sequence
(a brute-force scanner in dna.py and a skip-ahead scanner in
dna_advanced.py), an exact profile matcher (the main loop of dna.py),
a tolerance-weighted similarity scorer with ranking, a sex-marker
heuristic, and a simplified random-match probability estimate
(dna_advanced.py).

Strings are modeled as `List Char` and Python dictionaries as
functions.  The similarity scorer is modeled over `ℚ`: its float values
are exact sums of halves, and each asserted property survives the one
rounded division and multiplication, which are monotone and exact at
the asserted points.  The probability estimator is modeled bit-exactly
as IEEE-754 binary64 arithmetic on dyadic pairs, because there the
float rounding changes the returned integer.  Loops whose index
advances by a data-dependent amount are modeled by structurally
recursive functions taking a fuel argument; the wrappers pass the fuel
`sequence.length + 1`, which the fuel-irrelevance lemmas below certify
to be sufficient whenever the repeat unit is non-empty.  For an empty
repeat unit the source loops never terminate; that behaviour is
captured by `innerLoopF`, which returns `none` when its fuel runs out,
and by the theorem showing no amount of fuel makes it return.
-/

namespace DNAIdentifier

/-- Fueled model of the inner counting loop shared by `longest_match` in
dna.py and dna_advanced.py: starting at index `i`, count how many
consecutive, non-overlapping copies of `subsequence` follow.  One fuel
unit is consumed per loop iteration.  (The two sources phrase the bound
check differently — dna.py breaks when `start + sub_length > seq_length`,
dna_advanced.py continues while `i + (count+1)*sub_length <= seq_length` —
but the conditions are equivalent.) -/
def countFromF (sequence subsequence : List Char) : Nat → Nat → Nat
  | _, 0 => 0
  | i, fuel + 1 =>
    if i + subsequence.length ≤ sequence.length ∧
        (sequence.drop i).take subsequence.length = subsequence then
      countFromF sequence subsequence (i + subsequence.length) fuel + 1
    else 0

/-- Number of consecutive, non-overlapping copies of `subsequence`
starting at index `i` of `sequence`; the fuel `sequence.length + 1` is
sufficient whenever `subsequence` is non-empty (`countFromF_irrel`). -/
def countFrom (sequence subsequence : List Char) (i : Nat) : Nat :=
  countFromF sequence subsequence i (sequence.length + 1)

namespace Dna

/-- Model of `longest_match` from dna.py: the maximum of the consecutive
run counts over every starting position `i in range(seq_length)`. -/
def longest_match (sequence subsequence : List Char) : Nat :=
  (List.range sequence.length).foldl
    (fun longest_run i => max longest_run (countFrom sequence subsequence i)) 0

end Dna

namespace DnaAdvanced

/-- Fueled model of the outer skip-ahead loop of `longest_match` from
dna_advanced.py: `while i < seq_length - sub_length`, count the run at
`i`; on a positive count record it and skip past the run, otherwise
advance by one. -/
def advLoopF (sequence subsequence : List Char) : Nat → Nat → Nat → Nat
  | _, longest_run, 0 => longest_run
  | i, longest_run, fuel + 1 =>
    if i < sequence.length - subsequence.length then
      if 0 < countFrom sequence subsequence i then
        advLoopF sequence subsequence
          (i + countFrom sequence subsequence i * subsequence.length)
          (max longest_run (countFrom sequence subsequence i)) fuel
      else advLoopF sequence subsequence (i + 1) longest_run fuel
    else longest_run

/-- Skip-ahead loop with the certified-sufficient fuel `sequence.length + 1`. -/
def advLoop (sequence subsequence : List Char) (i longest_run : Nat) : Nat :=
  advLoopF sequence subsequence i longest_run (sequence.length + 1)

/-- Model of `longest_match` from dna_advanced.py: early exit when the
unit is longer than the sequence, then the skip-ahead scan from 0. -/
def longest_match (sequence subsequence : List Char) : Nat :=
  if sequence.length < subsequence.length then 0
  else advLoop sequence subsequence 0 0

end DnaAdvanced

/-- Faithful fueled model of the inner loop of `longest_match` in dna.py
(with `start = i + count * sub_length`): returns `some count` when the
loop breaks, `none` when the fuel is exhausted before the loop exits.
Used to show the loop never exits for an empty `subsequence`. -/
def innerLoopF (sequence subsequence : List Char) : Nat → Nat → Nat → Option Nat
  | _, _, 0 => none
  | i, count, fuel + 1 =>
    if sequence.length < i + count * subsequence.length + subsequence.length then
      some count
    else if (sequence.drop (i + count * subsequence.length)).take subsequence.length
        = subsequence then
      innerLoopF sequence subsequence i (count + 1) fuel
    else some count

/-- The unit repeated `k` consecutive times. -/
def repUnit (subsequence : List Char) (k : Nat) : List Char :=
  (List.replicate k subsequence).flatten

/-- The substring of `sequence` beginning at `s` consists of `k`
consecutive, non-overlapping occurrences of `subsequence` (a tandem
repeat, in the wording of the specification). -/
def tandemAt (sequence subsequence : List Char) (s k : Nat) : Prop :=
  (sequence.drop s).take (k * subsequence.length) = repUnit subsequence k

/-- Profile row of dna.py: a name plus an integer count per STR column. -/
structure Profile where
  name : String
  marker : String → Nat

/-- Model of the per-profile comparison in the main loop of dna.py: every
STR column of the profile must equal the scanned count (the source
breaks at the first mismatch; the conjunction has the same value). -/
def profileMatches (str_list : List String) (str_counts : String → Nat)
    (person : Profile) : Bool :=
  str_list.all fun s => person.marker s == str_counts s

/-- Model of the database loop of dna.py main: return the first profile
matching every scanned count, `none` when the database is exhausted. -/
def findExactMatch (str_list : List String) (database : List Profile)
    (str_counts : String → Nat) : Option Profile :=
  match database with
  | [] => none
  | person :: rest =>
    if profileMatches str_list str_counts person then some person
    else findExactMatch str_list rest str_counts

/-- Accumulated match score of the per-person marker loop in
dna_advanced.py main: AMEL adds 1 on an equal sex call; a numeric marker
adds 1 when `diff = 0`, 0.5 when `0 < diff <= 2`, nothing when
`diff > 2`.  Python float arithmetic is modeled exactly over `ℚ`.
The printed discrepancy strings are presentation only and not modeled. -/
def matchScore (str_markers : List String) (pnum : String → Int) (pamel : String)
    (snum : String → Int) (samel : String) : ℚ :=
  str_markers.foldl
    (fun match_score marker =>
      if marker = "AMEL" then
        (if pamel = samel then match_score + 1 else match_score)
      else if (pnum marker - snum marker).natAbs = 0 then match_score + 1
      else if (pnum marker - snum marker).natAbs ≤ 2 then match_score + 1/2
      else match_score)
    0

/-- Similarity of dna_advanced.py main:
`similarity = (match_score / len(str_markers)) * 100`. -/
def similarity (str_markers : List String) (pnum : String → Int) (pamel : String)
    (snum : String → Int) (samel : String) : ℚ :=
  matchScore str_markers pnum pamel snum samel / (str_markers.length : ℚ) * 100

/-- Per-marker contribution as worded by the specification: 1.0 for an
exact numeric match, 0.5 for `0 < diff ≤ 2`, 0 for `diff > 2`; for the
sex marker 1.0 on an exact call match and 0 otherwise. -/
def specContrib (marker : String) (pnum : String → Int) (pamel : String)
    (snum : String → Int) (samel : String) : ℚ :=
  if marker = "AMEL" then (if pamel = samel then 1 else 0)
  else if (pnum marker - snum marker).natAbs = 0 then 1
  else if 0 < (pnum marker - snum marker).natAbs ∧ (pnum marker - snum marker).natAbs ≤ 2 then 1/2
  else 0

/-- Ranked entry of dna_advanced.py (name and similarity; the printed
mismatch list is presentation only and not modeled). -/
structure MatchResult where
  name : String
  similarity : ℚ

/-- Database row of dna_advanced.py: integer values on numeric markers
and a sex-call string on AMEL. -/
structure ScanProfile where
  name : String
  num : String → Int
  amel : String

/-- The unsorted `matches` list built by dna_advanced.py main, in
database order. -/
def mkResults (str_markers : List String) (database : List ScanProfile)
    (snum : String → Int) (samel : String) : List MatchResult :=
  database.map fun p => ⟨p.name, similarity str_markers p.num p.amel snum samel⟩

/-- Stable descending insertion: place `x` after every element with a
strictly larger similarity and before the first element whose
similarity is not larger. -/
def insertDesc (x : MatchResult) : List MatchResult → List MatchResult
  | [] => [x]
  | y :: ys => if x.similarity < y.similarity then y :: insertDesc x ys else x :: y :: ys

/-- Model of `matches.sort(key=lambda x: x[similarity-field], reverse=True)`:
Python list.sort is a stable sort and `reverse=True` keeps equal keys in
their original order, which is exactly the stable descending insertion
sort. -/
def sortDesc : List MatchResult → List MatchResult
  | [] => []
  | x :: xs => insertDesc x (sortDesc xs)

/-- The ranked output of the tolerant matching path of dna_advanced.py. -/
def rankAll (str_markers : List String) (database : List ScanProfile)
    (snum : String → Int) (samel : String) : List MatchResult :=
  sortDesc (mkResults str_markers database snum samel)

/-- Checks whether `pat` occurs at position `i` of `sequence`. -/
def subAt (sequence pat : List Char) (i : Nat) : Bool :=
  (sequence.drop i).take pat.length == pat

/-- Model of the Python substring test `pat in sequence`. -/
def containsSub (sequence pat : List Char) : Bool :=
  (List.range (sequence.length + 1)).any (subAt sequence pat)

/-- Model of `analyze_amelogenin` from dna_advanced.py. -/
def analyze_amelogenin (sequence : List Char) : String :=
  if containsSub sequence ['Y'] || containsSub sequence ['T', 'A', 'T'] then "XY"
  else "XX"

/-- Scanned value per marker in dna_advanced.py: an integer repeat count,
or a sex-call string on AMEL. -/
inductive CountVal where
  | num (n : Nat)
  | sex (s : String)

/-!
CPython floats are IEEE-754 binary64: a finite positive value is
`m * 2^e` with a mantissa `m` of at most 53 bits, and every arithmetic
operation rounds its exact result to the nearest such value, ties to
even.  The probability routine of dna_advanced.py only ever multiplies
positive floats and takes one reciprocal, so it stays inside the
positive normal range and is modeled bit-exactly below by pairs
`(mantissa : Nat, exponent : ℤ)` with that rounding applied after every
operation, exactly as the hardware does.
-/

/-- Bit length of a natural number, by fuel-bounded structural recursion
(fuel 4000 covers far more than every value a binary64 computation can
produce). -/
def bitsF : Nat → Nat → Nat
  | 0, _ => 0
  | fuel + 1, n => if n = 0 then 0 else bitsF fuel (n / 2) + 1

/-- Bit length of a natural number. -/
def bits (n : Nat) : Nat := bitsF 4000 n

/-- Round the integer `m` at bit position `s` (drop the low `s` bits,
rounding to nearest, ties to even). -/
def roundMant (m : Nat) (s : Nat) : Nat :=
  if s = 0 then m
  else
    let q := m / 2 ^ s
    let r := m % 2 ^ s
    let half := 2 ^ (s - 1)
    if r < half then q
    else if half < r then q + 1
    else if q % 2 = 0 then q else q + 1

/-- Round the exact dyadic value `m * 2^e` to a 53-bit mantissa — the
IEEE-754 binary64 rounding of a value that is already dyadic. -/
def roundF (x : Nat × ℤ) : Nat × ℤ :=
  (roundMant x.1 (bits x.1 - 53), x.2 + (bits x.1 - 53 : Nat))

/-- Correctly rounded binary64 multiplication: the exact product of the
mantissas, rounded to 53 bits. -/
def mulF (x y : Nat × ℤ) : Nat × ℤ := roundF (x.1 * y.1, x.2 + y.2)

/-- Correctly rounded binary64 quotient of the exact ratio `num / den`
of two positive integers: scale the numerator so the integer quotient
carries at least 54 bits, divide, and round to 53 bits — a remainder
makes the value strictly above the halfway point, so the tie case needs
the remainder to be zero. -/
def divRound (num den : Nat) : Nat × ℤ :=
  let t : ℤ := (bits den + 54 : Nat) - (bits num : Nat)
  let num2 := if 0 ≤ t then num * 2 ^ t.toNat else num
  let den2 := if 0 ≤ t then den else den * 2 ^ (-t).toNat
  let q := num2 / den2
  let r := num2 % den2
  let s := bits q - 53
  let half := 2 ^ (s - 1)
  let q2 := q / 2 ^ s
  let r2 := q % 2 ^ s
  let m :=
    if s = 0 then q
    else if r2 < half then q2
    else if half < r2 then q2 + 1
    else if r = 0 then (if q2 % 2 = 0 then q2 else q2 + 1)
    else q2 + 1
  (m, (s : ℤ) - t)

/-- Correctly rounded binary64 reciprocal of a positive value. -/
def recipF (x : Nat × ℤ) : Nat × ℤ :=
  let d := divRound 1 x.1
  (d.1, d.2 - x.2)

/-- The binary64 value of the Python float literal `0.1` used as the
fixed allele frequency `freq` in the source: the real 1/10 rounded to
the nearest double, 3602879701896397 * 2^(-55). -/
def freq : Nat × ℤ := divRound 1 10

/-- Truncation toward zero of a nonnegative binary64 value, as the
Python conversion `int(x)` does. -/
def intF (x : Nat × ℤ) : Int :=
  if 0 ≤ x.2 then ((x.1 * 2 ^ x.2.toNat : Nat) : Int)
  else ((x.1 / 2 ^ (-x.2).toNat : Nat) : Int)

/-- Model of `calculate_match_probability` from dna_advanced.py over
binary64 arithmetic: starting from `probability = 1.0`, multiply by the
float 0.1 for every non-AMEL marker (each product rounded, as the
hardware rounds `probability *= freq`), and return
`int(1 / probability)` with the division also rounded.  The
`str_counts` argument is taken by the source but never read. -/
def calculate_match_probability (str_counts : String → CountVal)
    (markers : List String) : Int :=
  intF (recipF (markers.foldl
    (fun probability marker =>
      if marker = "AMEL" then probability else mulF probability freq) (1, 0)))

/-! ### Concrete inputs used by the witness theorems -/

/-- Witness database entry (the Alice profile of the specification
scenario). -/
def profileW : Profile := ⟨"Alice", fun m => if m = "AGAT" then 4 else 3⟩

/-- Witness database. -/
def databaseW : List Profile := [profileW]

/-- Witness scanned counts, equal to the Alice profile. -/
def countsW : String → Nat := fun m => if m = "AGAT" then 4 else 3

/-- Witness marker list. -/
def markersW : List String := ["AGAT", "AMEL"]

/-- Witness profile values on numeric markers. -/
def pnumW : String → Int := fun _ => 4

/-- Witness scanned values on numeric markers. -/
def snumW : String → Int := fun _ => 4

/-- Witness scanned values after worsening the AGAT count. -/
def snumW2 : String → Int := fun m => if m = "AGAT" then 9 else 4

/-- Witness scanned-count map for the probability routine. -/
def scanCountsW1 : String → CountVal := fun _ => CountVal.num 4

/-- Another witness scanned-count map, nowhere equal to the first. -/
def scanCountsW2 : String → CountVal := fun _ => CountVal.num 7

/-! ## Lemmas about the fueled run counter -/

lemma countFromF_irrel (sequence subsequence : List Char) (hu : 0 < subsequence.length) :
    ∀ fuel₁ fuel₂ i, sequence.length - i < fuel₁ → sequence.length - i < fuel₂ →
      countFromF sequence subsequence i fuel₁ = countFromF sequence subsequence i fuel₂ := by
  intro fuel₁
  induction fuel₁ with
  | zero => intro fuel₂ i h₁ h₂; omega
  | succ f ih =>
    intro fuel₂ i h₁ h₂
    match fuel₂ with
    | 0 => omega
    | g + 1 =>
      simp only [countFromF]
      by_cases hg : i + subsequence.length ≤ sequence.length ∧
          (sequence.drop i).take subsequence.length = subsequence
      · obtain ⟨hg1, hg2⟩ := hg
        rw [if_pos ⟨hg1, hg2⟩, if_pos ⟨hg1, hg2⟩,
          ih g (i + subsequence.length) (by omega) (by omega)]
      · rw [if_neg hg, if_neg hg]

/-- Unfolding equation for `countFrom`, valid for a non-empty unit: it
satisfies exactly the recurrence of the source inner loop. -/
lemma countFrom_eq (sequence subsequence : List Char) (i : Nat) (hu : 0 < subsequence.length) :
    countFrom sequence subsequence i =
      if i + subsequence.length ≤ sequence.length ∧
          (sequence.drop i).take subsequence.length = subsequence then
        countFrom sequence subsequence (i + subsequence.length) + 1
      else 0 := by
  unfold countFrom
  conv_lhs => simp only [countFromF]
  by_cases hg : i + subsequence.length ≤ sequence.length ∧
      (sequence.drop i).take subsequence.length = subsequence
  · obtain ⟨hg1, hg2⟩ := hg
    rw [if_pos ⟨hg1, hg2⟩, if_pos ⟨hg1, hg2⟩,
      countFromF_irrel sequence subsequence hu sequence.length (sequence.length + 1)
        (i + subsequence.length) (by omega) (by omega)]
  · rw [if_neg hg, if_neg hg]

/-! ## Tandem repeats -/

lemma repUnit_succ (subsequence : List Char) (k : Nat) :
    repUnit subsequence (k + 1) = subsequence ++ repUnit subsequence k := by
  simp [repUnit, List.replicate_succ]

lemma repUnit_length (subsequence : List Char) (k : Nat) :
    (repUnit subsequence k).length = k * subsequence.length := by
  induction k with
  | zero => simp [repUnit]
  | succ k ih => rw [repUnit_succ, List.length_append, ih]; ring

lemma tandemAt_zero (sequence subsequence : List Char) (s : Nat) :
    tandemAt sequence subsequence s 0 := by
  simp [tandemAt, repUnit]

lemma tandemAt_le (sequence subsequence : List Char) (s k : Nat)
    (h : tandemAt sequence subsequence s k) (hpos : 0 < k * subsequence.length) :
    s + k * subsequence.length ≤ sequence.length := by
  have hlen := congrArg List.length h
  rw [List.length_take, List.length_drop, repUnit_length] at hlen
  omega

lemma tandemAt_succ_iff (sequence subsequence : List Char) (s k : Nat)
    (hu : 0 < subsequence.length) :
    tandemAt sequence subsequence s (k + 1) ↔
      s + subsequence.length ≤ sequence.length ∧
      (sequence.drop s).take subsequence.length = subsequence ∧
      tandemAt sequence subsequence (s + subsequence.length) k := by
  have hexp : (k + 1) * subsequence.length
      = subsequence.length + k * subsequence.length := by ring
  constructor
  · intro h
    have hb : s + (k + 1) * subsequence.length ≤ sequence.length :=
      tandemAt_le _ _ _ _ h (Nat.mul_pos (Nat.succ_pos k) hu)
    have hsl : s + subsequence.length ≤ sequence.length := by rw [hexp] at hb; omega
    unfold tandemAt at h
    rw [hexp, List.take_add, repUnit_succ] at h
    have hlen1 : ((sequence.drop s).take subsequence.length).length
        = subsequence.length := by
      rw [List.length_take, List.length_drop]; omega
    obtain ⟨h1, h2⟩ := List.append_inj h hlen1
    refine ⟨hsl, h1, ?_⟩
    unfold tandemAt
    rwa [List.drop_drop] at h2
  · rintro ⟨hsl, h1, h2⟩
    unfold tandemAt at h2 ⊢
    rw [hexp, List.take_add, repUnit_succ, h1, List.drop_drop, h2]

lemma le_countFrom (sequence subsequence : List Char) (hu : 0 < subsequence.length) :
    ∀ k s, tandemAt sequence subsequence s k → k ≤ countFrom sequence subsequence s := by
  intro k
  induction k with
  | zero => intro s _; exact Nat.zero_le _
  | succ k ih =>
    intro s h
    obtain ⟨h1, h2, h3⟩ := (tandemAt_succ_iff sequence subsequence s k hu).mp h
    rw [countFrom_eq sequence subsequence s hu, if_pos ⟨h1, h2⟩]
    exact Nat.succ_le_succ (ih _ h3)

lemma countFrom_tandemAt (sequence subsequence : List Char) (hu : 0 < subsequence.length) :
    ∀ s, tandemAt sequence subsequence s (countFrom sequence subsequence s) := by
  have key : ∀ n s, sequence.length - s ≤ n →
      tandemAt sequence subsequence s (countFrom sequence subsequence s) := by
    intro n
    induction n with
    | zero =>
      intro s hs
      rw [countFrom_eq sequence subsequence s hu, if_neg]
      · exact tandemAt_zero _ _ _
      · rintro ⟨h1, -⟩; omega
    | succ n ih =>
      intro s hs
      rw [countFrom_eq sequence subsequence s hu]
      by_cases hg : s + subsequence.length ≤ sequence.length ∧
          (sequence.drop s).take subsequence.length = subsequence
      · rw [if_pos hg]
        exact (tandemAt_succ_iff sequence subsequence s _ hu).mpr
          ⟨hg.1, hg.2, ih (s + subsequence.length) (by omega)⟩
      · rw [if_neg hg]
        exact tandemAt_zero _ _ _
  intro s
  exact key sequence.length s (by omega)

/-! ## Folded maxima -/

lemma foldl_max_init (g : Nat → Nat) :
    ∀ (l : List Nat) (a : Nat), a ≤ l.foldl (fun acc i => max acc (g i)) a := by
  intro l
  induction l with
  | nil => intro a; exact Nat.le_refl a
  | cons x xs ih =>
    intro a
    exact Nat.le_trans (Nat.le_max_left a (g x)) (ih (max a (g x)))

lemma foldl_max_mem (g : Nat → Nat) :
    ∀ (l : List Nat) (a i : Nat), i ∈ l → g i ≤ l.foldl (fun acc j => max acc (g j)) a := by
  intro l
  induction l with
  | nil => intro a i hi; cases hi
  | cons x xs ih =>
    intro a i hi
    rcases List.mem_cons.mp hi with h | h
    · subst h
      exact Nat.le_trans (Nat.le_max_right a (g i)) (foldl_max_init g xs (max a (g i)))
    · exact ih _ i h

lemma foldl_max_cases (g : Nat → Nat) :
    ∀ (l : List Nat) (a : Nat),
      l.foldl (fun acc i => max acc (g i)) a = a ∨
      ∃ i ∈ l, l.foldl (fun acc i => max acc (g i)) a = g i := by
  intro l
  induction l with
  | nil => intro a; exact Or.inl rfl
  | cons x xs ih =>
    intro a
    rcases ih (max a (g x)) with h | ⟨i, hi, h⟩
    · rcases max_choice a (g x) with hm | hm
      · exact Or.inl (by rw [List.foldl_cons, h, hm])
      · exact Or.inr ⟨x, List.mem_cons_self x xs, by rw [List.foldl_cons, h, hm]⟩
    · exact Or.inr ⟨i, List.mem_cons_of_mem x hi, by rw [List.foldl_cons, h]⟩

/-! ## C1: the brute-force scanner -/

/-- Every tandem repeat count is a lower bound for the result of the
brute-force scanner. -/
lemma dna_lm_upper (sequence subsequence : List Char) (hu : 0 < subsequence.length) :
    ∀ s k, tandemAt sequence subsequence s k →
      k ≤ Dna.longest_match sequence subsequence := by
  intro s k ht
  cases k with
  | zero => exact Nat.zero_le _
  | succ k =>
    have hb := tandemAt_le _ _ _ _ ht (Nat.mul_pos (Nat.succ_pos k) hu)
    have hexp : (k + 1) * subsequence.length
        = subsequence.length + k * subsequence.length := by ring
    have hs : s < sequence.length := by rw [hexp] at hb; omega
    have h1 : k + 1 ≤ countFrom sequence subsequence s := le_countFrom _ _ hu _ _ ht
    have h2 := foldl_max_mem (countFrom sequence subsequence)
      (List.range sequence.length) 0 s (List.mem_range.mpr hs)
    exact Nat.le_trans h1 h2

/-- The result of the brute-force scanner is attained as a tandem repeat
count at some starting position. -/
lemma dna_lm_attained (sequence subsequence : List Char) (hu : 0 < subsequence.length) :
    ∃ s, tandemAt sequence subsequence s (Dna.longest_match sequence subsequence) := by
  rcases foldl_max_cases (countFrom sequence subsequence)
      (List.range sequence.length) 0 with h | ⟨i, _, h⟩
  · exact ⟨0, by unfold Dna.longest_match; rw [h]; exact tandemAt_zero _ _ _⟩
  · exact ⟨i, by unfold Dna.longest_match; rw [h]; exact countFrom_tandemAt _ _ hu i⟩

/-- C1: for every sequence and non-empty unit, `longest_match` in dna.py
returns the maximum, over all starting indices, of the largest number of
consecutive non-overlapping occurrences of the unit; in particular it
returns 0 when the unit never occurs, 0 when the unit is longer than the
sequence, and 0 for the empty sequence. -/
theorem dna_longest_match_correct (sequence subsequence : List Char)
    (hu : 0 < subsequence.length) :
    (∀ s k, tandemAt sequence subsequence s k →
      k ≤ Dna.longest_match sequence subsequence)
    ∧ (∃ s, tandemAt sequence subsequence s (Dna.longest_match sequence subsequence))
    ∧ ((¬ ∃ s, tandemAt sequence subsequence s 1) →
        Dna.longest_match sequence subsequence = 0)
    ∧ (sequence.length < subsequence.length →
        Dna.longest_match sequence subsequence = 0)
    ∧ (sequence = [] → Dna.longest_match sequence subsequence = 0) := by
  have upper := dna_lm_upper sequence subsequence hu
  have attained := dna_lm_attained sequence subsequence hu
  refine ⟨upper, attained, ?_, ?_, ?_⟩
  · intro hno
    by_contra h0
    have hpos : 0 < Dna.longest_match sequence subsequence := Nat.pos_of_ne_zero h0
    obtain ⟨s, hts⟩ := attained
    have hts' : tandemAt sequence subsequence s
        ((Dna.longest_match sequence subsequence - 1) + 1) := by
      rw [Nat.sub_add_cancel hpos]; exact hts
    obtain ⟨hle, htake, -⟩ := (tandemAt_succ_iff sequence subsequence s _ hu).mp hts'
    apply hno
    refine ⟨s, ?_⟩
    unfold tandemAt
    rw [one_mul]
    have h1 : repUnit subsequence 1 = subsequence := by simp [repUnit]
    rw [h1]
    exact htake
  · intro hl
    by_contra h0
    have hpos : 0 < Dna.longest_match sequence subsequence := Nat.pos_of_ne_zero h0
    obtain ⟨s, hts⟩ := attained
    have hb := tandemAt_le _ _ _ _ hts (Nat.mul_pos hpos hu)
    have hmul : subsequence.length
        ≤ Dna.longest_match sequence subsequence * subsequence.length :=
      Nat.le_mul_of_pos_left _ hpos
    omega
  · intro h
    subst h
    rfl

/-- Witness for the C1 theorem at a concrete input. -/
theorem dna_longest_match_correct_witness :
    0 < (['A', 'G'] : List Char).length ∧
    ((∀ s k, tandemAt ['A', 'G', 'A', 'G'] ['A', 'G'] s k →
        k ≤ Dna.longest_match ['A', 'G', 'A', 'G'] ['A', 'G'])
      ∧ (∃ s, tandemAt ['A', 'G', 'A', 'G'] ['A', 'G'] s
          (Dna.longest_match ['A', 'G', 'A', 'G'] ['A', 'G']))
      ∧ ((¬ ∃ s, tandemAt ['A', 'G', 'A', 'G'] ['A', 'G'] s 1) →
          Dna.longest_match ['A', 'G', 'A', 'G'] ['A', 'G'] = 0)
      ∧ ((['A', 'G', 'A', 'G'] : List Char).length < (['A', 'G'] : List Char).length →
          Dna.longest_match ['A', 'G', 'A', 'G'] ['A', 'G'] = 0)
      ∧ ((['A', 'G', 'A', 'G'] : List Char) = [] →
          Dna.longest_match ['A', 'G', 'A', 'G'] ['A', 'G'] = 0)) :=
  ⟨by decide, dna_longest_match_correct ['A', 'G', 'A', 'G'] ['A', 'G'] (by decide)⟩

/-! ## C2: the skip-ahead scanner -/

lemma advLoopF_irrel (sequence subsequence : List Char) (hu : 0 < subsequence.length) :
    ∀ fuel₁ fuel₂ i acc,
      sequence.length - subsequence.length - i < fuel₁ →
      sequence.length - subsequence.length - i < fuel₂ →
      DnaAdvanced.advLoopF sequence subsequence i acc fuel₁
        = DnaAdvanced.advLoopF sequence subsequence i acc fuel₂ := by
  intro fuel₁
  induction fuel₁ with
  | zero => intro fuel₂ i acc h₁ h₂; omega
  | succ f ih =>
    intro fuel₂ i acc h₁ h₂
    match fuel₂ with
    | 0 => omega
    | g + 1 =>
      simp only [DnaAdvanced.advLoopF]
      by_cases hi : i < sequence.length - subsequence.length
      · rw [if_pos hi, if_pos hi]
        by_cases hc : 0 < countFrom sequence subsequence i
        · rw [if_pos hc, if_pos hc]
          have hcl : 1 ≤ countFrom sequence subsequence i * subsequence.length :=
            Nat.mul_pos hc hu
          exact ih g _ _ (by omega) (by omega)
        · rw [if_neg hc, if_neg hc]
          exact ih g _ _ (by omega) (by omega)
      · rw [if_neg hi, if_neg hi]

/-- Unfolding equation for `advLoop`, valid for a non-empty unit: it
satisfies exactly the recurrence of the skip-ahead while loop. -/
lemma advLoop_eq (sequence subsequence : List Char) (i acc : Nat)
    (hu : 0 < subsequence.length) :
    DnaAdvanced.advLoop sequence subsequence i acc =
      if i < sequence.length - subsequence.length then
        if 0 < countFrom sequence subsequence i then
          DnaAdvanced.advLoop sequence subsequence
            (i + countFrom sequence subsequence i * subsequence.length)
            (max acc (countFrom sequence subsequence i))
        else DnaAdvanced.advLoop sequence subsequence (i + 1) acc
      else acc := by
  unfold DnaAdvanced.advLoop
  conv_lhs => simp only [DnaAdvanced.advLoopF]
  by_cases hi : i < sequence.length - subsequence.length
  · rw [if_pos hi, if_pos hi]
    by_cases hc : 0 < countFrom sequence subsequence i
    · rw [if_pos hc, if_pos hc]
      have hcl : 1 ≤ countFrom sequence subsequence i * subsequence.length :=
        Nat.mul_pos hc hu
      exact advLoopF_irrel sequence subsequence hu _ _ _ _ (by omega) (by omega)
    · rw [if_neg hc, if_neg hc]
      exact advLoopF_irrel sequence subsequence hu _ _ _ _ (by omega) (by omega)
  · rw [if_neg hi, if_neg hi]

/-- Every position examined by the skip-ahead loop is a position the
brute-force scan also examines, so the skip-ahead result never exceeds
the brute-force result. -/
lemma advLoop_le (sequence subsequence : List Char) (hu : 0 < subsequence.length) :
    ∀ n i acc, sequence.length - i ≤ n →
      acc ≤ Dna.longest_match sequence subsequence →
      DnaAdvanced.advLoop sequence subsequence i acc
        ≤ Dna.longest_match sequence subsequence := by
  intro n
  induction n with
  | zero =>
    intro i acc hn hacc
    rw [advLoop_eq sequence subsequence i acc hu, if_neg (by omega)]
    exact hacc
  | succ n ih =>
    intro i acc hn hacc
    rw [advLoop_eq sequence subsequence i acc hu]
    by_cases hi : i < sequence.length - subsequence.length
    · rw [if_pos hi]
      have hcmem : countFrom sequence subsequence i
          ≤ Dna.longest_match sequence subsequence :=
        foldl_max_mem (countFrom sequence subsequence) (List.range sequence.length) 0 i
          (List.mem_range.mpr (by omega))
      by_cases hc : 0 < countFrom sequence subsequence i
      · rw [if_pos hc]
        have hcl : 1 ≤ countFrom sequence subsequence i * subsequence.length :=
          Nat.mul_pos hc hu
        exact ih _ _ (by omega) (Nat.max_le.mpr ⟨hacc, hcmem⟩)
      · rw [if_neg hc]
        exact ih _ _ (by omega) hacc
    · rw [if_neg hi]
      exact hacc

/-- On a sequence that is exactly the unit repeated k times, the run
count from position 0 is exactly k. -/
lemma countFrom_repUnit (subsequence : List Char) (k : Nat) (hu : 0 < subsequence.length) :
    countFrom (repUnit subsequence k) subsequence 0 = k := by
  have ht : tandemAt (repUnit subsequence k) subsequence 0 k := by
    unfold tandemAt
    rw [List.drop_zero]
    conv_lhs => rw [← repUnit_length subsequence k]
    exact List.take_length _
  have hle := le_countFrom (repUnit subsequence k) subsequence hu k 0 ht
  have hge : countFrom (repUnit subsequence k) subsequence 0 ≤ k := by
    by_cases hc : 0 < countFrom (repUnit subsequence k) subsequence 0
    · have ht2 := countFrom_tandemAt (repUnit subsequence k) subsequence hu 0
      have hb := tandemAt_le _ _ _ _ ht2 (Nat.mul_pos hc hu)
      rw [repUnit_length] at hb
      exact Nat.le_of_mul_le_mul_right (by omega) hu
    · omega
  omega

/-- The brute-force scanner on the unit repeated k times returns k. -/
lemma dna_longest_match_repUnit (subsequence : List Char) (k : Nat)
    (hu : 0 < subsequence.length) :
    Dna.longest_match (repUnit subsequence k) subsequence = k := by
  have hle : Dna.longest_match (repUnit subsequence k) subsequence ≤ k := by
    obtain ⟨s, hts⟩ := dna_lm_attained (repUnit subsequence k) subsequence hu
    by_cases hc : 0 < Dna.longest_match (repUnit subsequence k) subsequence
    · have hb := tandemAt_le _ _ _ _ hts (Nat.mul_pos hc hu)
      rw [repUnit_length] at hb
      exact Nat.le_of_mul_le_mul_right (by omega) hu
    · omega
  cases Nat.eq_zero_or_pos k with
  | inl h0 => omega
  | inr hkpos =>
    have h0lt : 0 < (repUnit subsequence k).length := by
      rw [repUnit_length]; exact Nat.mul_pos hkpos hu
    have hge : k ≤ Dna.longest_match (repUnit subsequence k) subsequence := by
      have hmem := foldl_max_mem (countFrom (repUnit subsequence k) subsequence)
        (List.range (repUnit subsequence k).length) 0 0 (List.mem_range.mpr h0lt)
      rw [countFrom_repUnit subsequence k hu] at hmem
      exact hmem
    omega

/-- The skip-ahead scanner on the unit repeated k times returns k for
every k other than 1 (for k = 1 its loop bound excludes the only
starting position and it returns 0, see the disagreement theorem). -/
lemma adv_longest_match_repUnit (subsequence : List Char) (k : Nat)
    (hu : 0 < subsequence.length) (hk : k ≠ 1) :
    DnaAdvanced.longest_match (repUnit subsequence k) subsequence = k := by
  cases Nat.eq_zero_or_pos k with
  | inl h0 =>
    subst h0
    unfold DnaAdvanced.longest_match
    rw [if_pos (by rw [repUnit_length]; omega)]
  | inr hkpos =>
    have hk2 : 2 ≤ k := by omega
    have hlen := repUnit_length subsequence k
    have h1 : 1 * subsequence.length ≤ k * subsequence.length :=
      Nat.mul_le_mul_right _ hkpos
    have h2 : 2 * subsequence.length ≤ k * subsequence.length :=
      Nat.mul_le_mul_right _ hk2
    unfold DnaAdvanced.longest_match
    rw [if_neg (by omega)]
    rw [advLoop_eq _ _ _ _ hu, countFrom_repUnit subsequence k hu]
    rw [if_pos (by omega : 0 < (repUnit subsequence k).length - subsequence.length)]
    rw [if_pos hkpos]
    rw [advLoop_eq _ _ _ _ hu]
    rw [if_neg (by omega)]
    omega

/-- C2 (amended): the skip-ahead scanner of dna_advanced.py never exceeds
the brute-force scanner of dna.py, and on a sequence that is exactly the
unit repeated k times both return k for every k other than 1; the full
claim fails for k = 1, where the skip-ahead loop bound excludes the
final (and only) starting position — see the disagreement theorem. -/
theorem longest_match_scanners_agreement (sequence subsequence : List Char)
    (hu : 0 < subsequence.length) :
    DnaAdvanced.longest_match sequence subsequence
      ≤ Dna.longest_match sequence subsequence
    ∧ ∀ k, k ≠ 1 → sequence = repUnit subsequence k →
        Dna.longest_match sequence subsequence = k
        ∧ DnaAdvanced.longest_match sequence subsequence = k := by
  constructor
  · unfold DnaAdvanced.longest_match
    by_cases hl : sequence.length < subsequence.length
    · rw [if_pos hl]; exact Nat.zero_le _
    · rw [if_neg hl]
      exact advLoop_le sequence subsequence hu sequence.length 0 0 (by omega) (Nat.zero_le _)
  · intro k hk hseq
    subst hseq
    exact ⟨dna_longest_match_repUnit subsequence k hu,
      adv_longest_match_repUnit subsequence k hu hk⟩

/-- C2 counterexample: on the sequence "A" with unit "A" — the unit
repeated exactly once with no extra characters — the brute-force scanner
of dna.py returns 1 while the skip-ahead scanner of dna_advanced.py
returns 0, because its loop `while i < seq_length - sub_length` never
examines the final starting position. -/
theorem longest_match_scanners_disagree :
    Dna.longest_match ['A'] ['A'] = 1
    ∧ DnaAdvanced.longest_match ['A'] ['A'] = 0
    ∧ ['A'] = repUnit ['A'] 1 := by decide

/-- Witness for the amended C2 theorem at a concrete input. -/
theorem longest_match_scanners_agreement_witness :
    0 < (['A', 'G'] : List Char).length
    ∧ DnaAdvanced.longest_match ['A', 'G', 'A', 'G'] ['A', 'G']
        ≤ Dna.longest_match ['A', 'G', 'A', 'G'] ['A', 'G']
    ∧ Dna.longest_match ['A', 'G', 'A', 'G'] ['A', 'G'] = 2
    ∧ DnaAdvanced.longest_match ['A', 'G', 'A', 'G'] ['A', 'G'] = 2 :=
  ⟨by decide,
    (longest_match_scanners_agreement ['A', 'G', 'A', 'G'] ['A', 'G'] (by decide)).1,
    ((longest_match_scanners_agreement ['A', 'G', 'A', 'G'] ['A', 'G'] (by decide)).2 2
      (by decide) (by decide)).1,
    ((longest_match_scanners_agreement ['A', 'G', 'A', 'G'] ['A', 'G'] (by decide)).2 2
      (by decide) (by decide)).2⟩

/-! ## C7: empty repeat unit -/

/-- Bridging lemma: for a non-empty unit the fueled model of the source
inner loop terminates and returns exactly the run count `countFrom`, so
the two models agree wherever the source loop terminates. -/
lemma innerLoopF_eq_countFrom (sequence subsequence : List Char)
    (hu : 0 < subsequence.length) :
    ∀ fuel i count,
      countFrom sequence subsequence (i + count * subsequence.length) < fuel →
      innerLoopF sequence subsequence i count fuel
        = some (count + countFrom sequence subsequence (i + count * subsequence.length)) := by
  intro fuel
  induction fuel with
  | zero => intro i count h; omega
  | succ fuel ih =>
    intro i count h
    simp only [innerLoopF]
    by_cases hb : sequence.length
        < i + count * subsequence.length + subsequence.length
    · rw [if_pos hb]
      have h0 : countFrom sequence subsequence (i + count * subsequence.length) = 0 := by
        rw [countFrom_eq _ _ _ hu, if_neg (by rintro ⟨h1, -⟩; omega)]
      rw [h0]
      rfl
    · rw [if_neg hb]
      by_cases hm : (sequence.drop (i + count * subsequence.length)).take
          subsequence.length = subsequence
      · rw [if_pos hm]
        have hstep : countFrom sequence subsequence (i + count * subsequence.length)
            = countFrom sequence subsequence
                (i + count * subsequence.length + subsequence.length) + 1 := by
          rw [countFrom_eq _ _ _ hu, if_pos ⟨by omega, hm⟩]
        have harg : i + (count + 1) * subsequence.length
            = i + count * subsequence.length + subsequence.length := by ring
        rw [ih i (count + 1) (by rw [harg]; omega)]
        rw [harg]
        simp only [Option.some.injEq]
        omega
      · rw [if_neg hm]
        have h0 : countFrom sequence subsequence (i + count * subsequence.length) = 0 := by
          rw [countFrom_eq _ _ _ hu, if_neg (by rintro ⟨-, h2⟩; exact hm h2)]
        rw [h0]
        rfl

/-- C7: the source defines no `InvalidMarkerError`; for an empty repeat
unit the inner counting loop of `longest_match` (the same loop shape in
dna.py and dna_advanced.py) never exits once entered at any position
`i ≤ len(sequence)` — no amount of fuel makes the modeled loop return. -/
theorem empty_unit_loops_forever (sequence : List Char) (i : Nat)
    (hi : i ≤ sequence.length) :
    ∀ count fuel, innerLoopF sequence [] i count fuel = none := by
  intro count fuel
  induction fuel generalizing count with
  | zero => rfl
  | succ fuel ih =>
    simp only [innerLoopF]
    rw [if_neg (by simp only [List.length_nil, Nat.mul_zero, Nat.add_zero]; omega),
      if_pos (by simp)]
    exact ih (count + 1)

/-- Witness: at the failing input (sequence "A", empty unit) the modeled
inner loop of the source is applied with fuel 5 and does not return. -/
theorem empty_unit_loops_forever_witness :
    (0 : Nat) ≤ (['A'] : List Char).length ∧ innerLoopF ['A'] [] 0 0 5 = none :=
  ⟨by decide, empty_unit_loops_forever ['A'] 0 (by decide) 0 5⟩

/-! ## C3: exact profile matching -/

lemma findExactMatch_cons (str_list : List String) (person : Profile)
    (rest : List Profile) (str_counts : String → Nat) :
    findExactMatch str_list (person :: rest) str_counts =
      if profileMatches str_list str_counts person then some person
      else findExactMatch str_list rest str_counts := rfl

lemma findExactMatch_spec (str_list : List String) (str_counts : String → Nat) :
    ∀ database : List Profile,
      (∀ p, findExactMatch str_list database str_counts = some p →
        profileMatches str_list str_counts p = true ∧
        ∃ i, ∃ hi : i < database.length, database.get ⟨i, hi⟩ = p ∧
          ∀ j (hj : j < i),
            profileMatches str_list str_counts (database.get ⟨j, Nat.lt_trans hj hi⟩) = false)
      ∧ (findExactMatch str_list database str_counts = none ↔
          ∀ p ∈ database, profileMatches str_list str_counts p = false) := by
  intro database
  induction database with
  | nil =>
    constructor
    · intro p h
      simp [findExactMatch] at h
    · simp [findExactMatch]
  | cons person rest ih =>
    by_cases hq : profileMatches str_list str_counts person = true
    · constructor
      · intro p h
        rw [findExactMatch_cons, if_pos hq] at h
        have hp : person = p := Option.some.inj h
        subst hp
        refine ⟨hq, 0, Nat.succ_pos _, rfl, ?_⟩
        intro j hj
        exact absurd hj (Nat.not_lt_zero j)
      · constructor
        · intro h
          rw [findExactMatch_cons, if_pos hq] at h
          exact absurd h (by simp)
        · intro hall
          have hfalse := hall person (List.mem_cons_self _ _)
          rw [hq] at hfalse
          exact absurd hfalse (by simp)
    · have hqf : profileMatches str_list str_counts person = false := by
        simpa using hq
      constructor
      · intro p h
        rw [findExactMatch_cons, if_neg hq] at h
        obtain ⟨hmatch, i, hi, hget, hbefore⟩ := ih.1 p h
        refine ⟨hmatch, i + 1, Nat.succ_lt_succ hi, hget, ?_⟩
        intro j hj
        cases j with
        | zero => exact hqf
        | succ j => exact hbefore j (Nat.lt_of_succ_lt_succ hj)
      · rw [findExactMatch_cons, if_neg hq, ih.2]
        constructor
        · intro hall p hp
          rcases List.mem_cons.mp hp with h | h
          · rw [h]; exact hqf
          · exact hall p h
        · intro hall p hp
          exact hall p (List.mem_cons_of_mem _ hp)

/-- C3: on a non-empty database, exact matching (the database loop of
dna.py main) returns the first profile, in insertion order, whose every
marker value equals the scanned count — every earlier profile has some
mismatching marker — and reports no match exactly when every profile in
the database mismatches. -/
theorem findExactMatch_first_match (str_list : List String) (database : List Profile)
    (str_counts : String → Nat) (hdb : database ≠ []) :
    (∀ p, findExactMatch str_list database str_counts = some p →
      profileMatches str_list str_counts p = true ∧
      ∃ i, ∃ hi : i < database.length, database.get ⟨i, hi⟩ = p ∧
        ∀ j (hj : j < i),
          profileMatches str_list str_counts (database.get ⟨j, Nat.lt_trans hj hi⟩) = false)
    ∧ (findExactMatch str_list database str_counts = none ↔
        ∀ p ∈ database, profileMatches str_list str_counts p = false) :=
  findExactMatch_spec str_list str_counts database

/-- Witness for the C3 theorem on the one-profile Alice database. -/
theorem findExactMatch_first_match_witness :
    databaseW ≠ [] ∧
    ((∀ p, findExactMatch ["AGAT", "AATG"] databaseW countsW = some p →
      profileMatches ["AGAT", "AATG"] countsW p = true ∧
      ∃ i, ∃ hi : i < databaseW.length, databaseW.get ⟨i, hi⟩ = p ∧
        ∀ j (hj : j < i),
          profileMatches ["AGAT", "AATG"] countsW (databaseW.get ⟨j, Nat.lt_trans hj hi⟩) = false)
    ∧ (findExactMatch ["AGAT", "AATG"] databaseW countsW = none ↔
        ∀ p ∈ databaseW, profileMatches ["AGAT", "AATG"] countsW p = false)) :=
  ⟨by simp [databaseW], findExactMatch_first_match ["AGAT", "AATG"] databaseW countsW
    (by simp [databaseW])⟩

/-! ## C4 and C8: similarity scoring -/

/-- The score fold of the source computes the sum of the per-marker
contributions as worded by the specification. -/
lemma matchScore_eq_sum (str_markers : List String) (pnum : String → Int)
    (pamel : String) (snum : String → Int) (samel : String) :
    matchScore str_markers pnum pamel snum samel
      = (str_markers.map fun m => specContrib m pnum pamel snum samel).sum := by
  have key : ∀ (l : List String) (a : ℚ),
      l.foldl
        (fun match_score marker =>
          if marker = "AMEL" then
            (if pamel = samel then match_score + 1 else match_score)
          else if (pnum marker - snum marker).natAbs = 0 then match_score + 1
          else if (pnum marker - snum marker).natAbs ≤ 2 then match_score + 1/2
          else match_score) a
      = a + (l.map fun m => specContrib m pnum pamel snum samel).sum := by
    intro l
    induction l with
    | nil => intro a; simp
    | cons x xs ih =>
      intro a
      rw [List.foldl_cons, List.map_cons, List.sum_cons, ih]
      have hstep : (if x = "AMEL" then
            (if pamel = samel then a + 1 else a)
          else if (pnum x - snum x).natAbs = 0 then a + 1
          else if (pnum x - snum x).natAbs ≤ 2 then a + 1/2
          else a)
          = a + specContrib x pnum pamel snum samel := by
        unfold specContrib
        by_cases h1 : x = "AMEL"
        · rw [if_pos h1, if_pos h1]
          by_cases h2 : pamel = samel
          · rw [if_pos h2, if_pos h2]
          · rw [if_neg h2, if_neg h2]; ring
        · rw [if_neg h1, if_neg h1]
          by_cases h3 : (pnum x - snum x).natAbs = 0
          · rw [if_pos h3, if_pos h3]
          · rw [if_neg h3, if_neg h3]
            by_cases h4 : (pnum x - snum x).natAbs ≤ 2
            · rw [if_pos h4, if_pos (⟨Nat.pos_of_ne_zero h3, h4⟩ :
                0 < (pnum x - snum x).natAbs ∧ (pnum x - snum x).natAbs ≤ 2)]
            · rw [if_neg h4, if_neg (by rintro ⟨-, h5⟩; exact h4 h5)]; ring
      rw [hstep]
      ring
  rw [matchScore, key, zero_add]

lemma specContrib_nonneg (marker : String) (pnum : String → Int) (pamel : String)
    (snum : String → Int) (samel : String) :
    0 ≤ specContrib marker pnum pamel snum samel := by
  unfold specContrib
  split_ifs <;> norm_num

lemma specContrib_le_one (marker : String) (pnum : String → Int) (pamel : String)
    (snum : String → Int) (samel : String) :
    specContrib marker pnum pamel snum samel ≤ 1 := by
  unfold specContrib
  split_ifs <;> norm_num

lemma qsum_nonneg (l : List String) (f : String → ℚ) (h : ∀ m ∈ l, 0 ≤ f m) :
    0 ≤ (l.map f).sum := by
  induction l with
  | nil => simp
  | cons x xs ih =>
    rw [List.map_cons, List.sum_cons]
    exact add_nonneg (h x (List.mem_cons_self _ _))
      (ih fun m hm => h m (List.mem_cons_of_mem _ hm))

lemma qsum_le (l : List String) (f g : String → ℚ) (h : ∀ m ∈ l, f m ≤ g m) :
    (l.map f).sum ≤ (l.map g).sum := by
  induction l with
  | nil => simp
  | cons x xs ih =>
    rw [List.map_cons, List.map_cons, List.sum_cons, List.sum_cons]
    exact add_le_add (h x (List.mem_cons_self _ _))
      (ih fun m hm => h m (List.mem_cons_of_mem _ hm))

lemma qsum_le_length (l : List String) (f : String → ℚ) (h : ∀ m ∈ l, f m ≤ 1) :
    (l.map f).sum ≤ (l.length : ℚ) := by
  induction l with
  | nil => simp
  | cons x xs ih =>
    rw [List.map_cons, List.sum_cons, List.length_cons]
    push_cast
    have h1 := ih fun m hm => h m (List.mem_cons_of_mem _ hm)
    have h2 := h x (List.mem_cons_self _ _)
    linarith

lemma qsum_eq_length (l : List String) (f : String → ℚ) (h : ∀ m ∈ l, f m = 1) :
    (l.map f).sum = (l.length : ℚ) := by
  induction l with
  | nil => simp
  | cons x xs ih =>
    rw [List.map_cons, List.sum_cons, List.length_cons,
      h x (List.mem_cons_self _ _), ih fun m hm => h m (List.mem_cons_of_mem _ hm)]
    push_cast
    ring

/-- C4: the similarity score equals (sum of per-marker contributions /
total marker count) * 100, with the contributions as specified (1 for an
exact match, 0.5 for a difference in (0,2], 0 beyond 2, and for the sex
marker 1 on an equal call and 0 otherwise); it always lies in [0, 100],
and a profile identical to the scanned counts on all markers scores
exactly 100. -/
theorem similarity_score_spec (str_markers : List String) (pnum : String → Int)
    (pamel : String) (snum : String → Int) (samel : String)
    (hm : str_markers ≠ []) :
    similarity str_markers pnum pamel snum samel
      = ((str_markers.map fun m => specContrib m pnum pamel snum samel).sum
          / (str_markers.length : ℚ)) * 100
    ∧ 0 ≤ similarity str_markers pnum pamel snum samel
    ∧ similarity str_markers pnum pamel snum samel ≤ 100
    ∧ ((∀ m ∈ str_markers, m ≠ "AMEL" → pnum m = snum m) → pamel = samel →
        similarity str_markers pnum pamel snum samel = 100) := by
  have hlen : 0 < (str_markers.length : ℚ) := by
    exact_mod_cast List.length_pos.mpr hm
  have hsum := matchScore_eq_sum str_markers pnum pamel snum samel
  refine ⟨?_, ?_, ?_, ?_⟩
  · unfold similarity
    rw [hsum]
  · unfold similarity
    apply mul_nonneg _ (by norm_num)
    apply div_nonneg _ (le_of_lt hlen)
    rw [hsum]
    exact qsum_nonneg _ _ fun m _ => specContrib_nonneg m pnum pamel snum samel
  · unfold similarity
    have h1 : matchScore str_markers pnum pamel snum samel / (str_markers.length : ℚ) ≤ 1 := by
      rw [div_le_one hlen, hsum]
      exact qsum_le_length _ _ fun m _ => specContrib_le_one m pnum pamel snum samel
    calc matchScore str_markers pnum pamel snum samel / (str_markers.length : ℚ) * 100
        ≤ 1 * 100 := mul_le_mul_of_nonneg_right h1 (by norm_num)
      _ = 100 := one_mul _
  · intro hid hamel
    have hall : ∀ m ∈ str_markers, specContrib m pnum pamel snum samel = 1 := by
      intro m hmm
      unfold specContrib
      by_cases h1 : m = "AMEL"
      · rw [if_pos h1, if_pos hamel]
      · have h0 : (pnum m - snum m).natAbs = 0 := by
          rw [hid m hmm h1, sub_self]
          rfl
        rw [if_neg h1, if_pos h0]
    unfold similarity
    rw [hsum, qsum_eq_length _ _ hall, div_self (ne_of_gt hlen)]
    norm_num

/-- Witness for the C4 theorem at a concrete input. -/
theorem similarity_score_spec_witness :
    markersW ≠ [] ∧
    (similarity markersW pnumW "XY" snumW "XY"
      = ((markersW.map fun m => specContrib m pnumW "XY" snumW "XY").sum
          / (markersW.length : ℚ)) * 100
    ∧ 0 ≤ similarity markersW pnumW "XY" snumW "XY"
    ∧ similarity markersW pnumW "XY" snumW "XY" ≤ 100
    ∧ ((∀ m ∈ markersW, m ≠ "AMEL" → pnumW m = snumW m) → "XY" = "XY" →
        similarity markersW pnumW "XY" snumW "XY" = 100)) :=
  ⟨by simp [markersW], similarity_score_spec markersW pnumW "XY" snumW "XY"
    (by simp [markersW])⟩

/-- C8: worsening the scanned count at a single non-sex marker (so that
its absolute difference from the profile count strictly increases, all
other markers unchanged) never increases the similarity score. -/
theorem similarity_antitone_in_diff (str_markers : List String) (pnum : String → Int)
    (pamel : String) (snum snum2 : String → Int) (samel : String) (m : String)
    (hm : m ≠ "AMEL") (hother : ∀ x, x ≠ m → snum2 x = snum x)
    (hdiff : (pnum m - snum m).natAbs < (pnum m - snum2 m).natAbs) :
    similarity str_markers pnum pamel snum2 samel
      ≤ similarity str_markers pnum pamel snum samel := by
  have hpt : ∀ x ∈ str_markers,
      specContrib x pnum pamel snum2 samel ≤ specContrib x pnum pamel snum samel := by
    intro x _
    by_cases hxA : x = "AMEL"
    · unfold specContrib
      rw [if_pos hxA, if_pos hxA]
    · by_cases hxm : x = m
      · subst hxm
        unfold specContrib
        rw [if_neg hxA, if_neg hxA]
        set d := (pnum x - snum x).natAbs with hd
        set e := (pnum x - snum2 x).natAbs with he
        by_cases he0 : e = 0
        · exact absurd hdiff (by omega)
        · rw [if_neg he0]
          by_cases hd0 : d = 0
          · rw [if_pos hd0]
            split_ifs <;> norm_num
          · rw [if_neg hd0]
            by_cases he2 : 0 < e ∧ e ≤ 2
            · rw [if_pos he2]
              have hd2 : 0 < d ∧ d ≤ 2 := ⟨Nat.pos_of_ne_zero hd0, by omega⟩
              rw [if_pos hd2]
            · rw [if_neg he2]
              split_ifs <;> norm_num
      · unfold specContrib
        rw [if_neg hxA, if_neg hxA, hother x hxm]
  have h2 : matchScore str_markers pnum pamel snum2 samel
      ≤ matchScore str_markers pnum pamel snum samel := by
    rw [matchScore_eq_sum, matchScore_eq_sum]
    exact qsum_le _ _ _ hpt
  unfold similarity
  rcases eq_or_ne str_markers [] with h | h
  · subst h
    simp [matchScore]
  · have hlen : 0 < (str_markers.length : ℚ) := by
      exact_mod_cast List.length_pos.mpr h
    apply mul_le_mul_of_nonneg_right _ (by norm_num : (0:ℚ) ≤ 100)
    exact (div_le_div_iff_of_pos_right hlen).mpr h2

/-- Witness for the C8 theorem at a concrete input: moving the scanned
AGAT count from an exact match to a difference of 5 does not raise the
similarity. -/
theorem similarity_antitone_in_diff_witness :
    ("AGAT" : String) ≠ "AMEL"
    ∧ (∀ x, x ≠ "AGAT" → snumW2 x = snumW x)
    ∧ (pnumW "AGAT" - snumW "AGAT").natAbs < (pnumW "AGAT" - snumW2 "AGAT").natAbs
    ∧ similarity markersW pnumW "XX" snumW2 "XX"
        ≤ similarity markersW pnumW "XX" snumW "XX" :=
  ⟨by decide, fun x hx => by simp [snumW2, snumW, hx], by decide,
    similarity_antitone_in_diff markersW pnumW "XX" snumW snumW2 "XX" "AGAT" (by decide)
      (fun x hx => by simp [snumW2, snumW, hx]) (by decide)⟩

/-! ## C5: ranking is sorted descending and stable -/

lemma insertDesc_perm (x : MatchResult) :
    ∀ l : List MatchResult, List.Perm (insertDesc x l) (x :: l) := by
  intro l
  induction l with
  | nil => exact List.Perm.refl _
  | cons y ys ih =>
    simp only [insertDesc]
    by_cases h : x.similarity < y.similarity
    · rw [if_pos h]
      exact (List.Perm.cons y ih).trans (List.Perm.swap x y ys)
    · rw [if_neg h]

lemma sortDesc_perm : ∀ l : List MatchResult, List.Perm (sortDesc l) l := by
  intro l
  induction l with
  | nil => exact List.Perm.refl _
  | cons x xs ih =>
    exact (insertDesc_perm x (sortDesc xs)).trans (List.Perm.cons x ih)

lemma insertDesc_sorted (x : MatchResult) :
    ∀ l : List MatchResult,
      List.Pairwise (fun a b => b.similarity ≤ a.similarity) l →
      List.Pairwise (fun a b => b.similarity ≤ a.similarity) (insertDesc x l) := by
  intro l
  induction l with
  | nil =>
    intro _
    simp [insertDesc]
  | cons y ys ih =>
    intro h
    rw [List.pairwise_cons] at h
    obtain ⟨hy, hys⟩ := h
    simp only [insertDesc]
    by_cases hxy : x.similarity < y.similarity
    · rw [if_pos hxy, List.pairwise_cons]
      refine ⟨?_, ih hys⟩
      intro z hz
      rcases List.mem_cons.mp ((insertDesc_perm x ys).mem_iff.mp hz) with h | h
      · rw [h]
        exact le_of_lt hxy
      · exact hy z h
    · rw [if_neg hxy, List.pairwise_cons]
      constructor
      · intro z hz
        rcases List.mem_cons.mp hz with h | h
        · rw [h]
          exact le_of_not_lt hxy
        · exact le_trans (hy z h) (le_of_not_lt hxy)
      · rw [List.pairwise_cons]
        exact ⟨hy, hys⟩

lemma sortDesc_sorted : ∀ l : List MatchResult,
    List.Pairwise (fun a b => b.similarity ≤ a.similarity) (sortDesc l) := by
  intro l
  induction l with
  | nil => simp [sortDesc]
  | cons x xs ih => exact insertDesc_sorted x (sortDesc xs) ih

/-- Inserting an element never reorders the elements of any fixed
similarity class: stability of the descending insertion. -/
lemma insertDesc_filter (q : ℚ) (x : MatchResult) :
    ∀ l : List MatchResult,
      (insertDesc x l).filter (fun r => decide (r.similarity = q))
        = (x :: l).filter (fun r => decide (r.similarity = q)) := by
  intro l
  induction l with
  | nil => rfl
  | cons y ys ih =>
    simp only [insertDesc]
    by_cases hxy : x.similarity < y.similarity
    · rw [if_pos hxy]
      by_cases hx : x.similarity = q <;> by_cases hy : y.similarity = q
      · exact absurd hxy (by rw [hx, hy]; exact lt_irrefl q)
      all_goals simp [List.filter_cons, hx, hy, ih]
    · rw [if_neg hxy]

lemma sortDesc_filter (q : ℚ) : ∀ l : List MatchResult,
    (sortDesc l).filter (fun r => decide (r.similarity = q))
      = l.filter (fun r => decide (r.similarity = q)) := by
  intro l
  induction l with
  | nil => rfl
  | cons x xs ih =>
    show (insertDesc x (sortDesc xs)).filter _ = _
    rw [insertDesc_filter q x (sortDesc xs), List.filter_cons, ih, List.filter_cons]

/-- C5: the ranked output is a permutation of the per-profile results
computed in database order, it is sorted in descending order of
similarity, and every similarity class appears in exactly its original
database order (stability of the tie-break). -/
theorem rankAll_sorted_stable (str_markers : List String) (database : List ScanProfile)
    (snum : String → Int) (samel : String) :
    List.Perm (rankAll str_markers database snum samel)
      (mkResults str_markers database snum samel)
    ∧ List.Pairwise (fun a b => b.similarity ≤ a.similarity)
        (rankAll str_markers database snum samel)
    ∧ ∀ q : ℚ,
        (rankAll str_markers database snum samel).filter
            (fun r => decide (r.similarity = q))
          = (mkResults str_markers database snum samel).filter
              (fun r => decide (r.similarity = q)) :=
  ⟨sortDesc_perm _, sortDesc_sorted _, fun q => sortDesc_filter q _⟩

/-! ## C9: the sex-marker heuristic -/

lemma containsSub_iff (sequence pat : List Char) (hp : pat ≠ []) :
    containsSub sequence pat = true ↔ ∃ i, (sequence.drop i).take pat.length = pat := by
  unfold containsSub
  rw [List.any_eq_true]
  constructor
  · rintro ⟨i, -, hi⟩
    refine ⟨i, ?_⟩
    simpa [subAt] using hi
  · rintro ⟨i, hi⟩
    by_cases hle : i ≤ sequence.length
    · refine ⟨i, List.mem_range.mpr (by omega), ?_⟩
      simp [subAt, hi]
    · exfalso
      have hd : sequence.drop i = [] := List.drop_eq_nil_of_le (by omega)
      rw [hd, List.take_nil] at hi
      exact hp hi.symm

/-- C9: the sex call is XY exactly when the sequence contains the literal
substring Y or the literal substring TAT anywhere, XX otherwise, and it
is always one of these two values. -/
theorem analyze_amelogenin_spec : ∀ sequence : List Char,
    (analyze_amelogenin sequence = "XY" ↔
      (∃ i, (sequence.drop i).take 1 = ['Y'])
        ∨ (∃ i, (sequence.drop i).take 3 = ['T', 'A', 'T']))
    ∧ (analyze_amelogenin sequence = "XX" ↔
      ¬ ((∃ i, (sequence.drop i).take 1 = ['Y'])
        ∨ (∃ i, (sequence.drop i).take 3 = ['T', 'A', 'T'])))
    ∧ (analyze_amelogenin sequence = "XY" ∨ analyze_amelogenin sequence = "XX") := by
  intro sequence
  have hY : containsSub sequence ['Y'] = true ↔
      ∃ i, (sequence.drop i).take 1 = ['Y'] := by
    simpa using containsSub_iff sequence ['Y'] (by simp)
  have hT : containsSub sequence ['T', 'A', 'T'] = true ↔
      ∃ i, (sequence.drop i).take 3 = ['T', 'A', 'T'] := by
    simpa using containsSub_iff sequence ['T', 'A', 'T'] (by simp)
  unfold analyze_amelogenin
  by_cases hc : (containsSub sequence ['Y'] || containsSub sequence ['T', 'A', 'T']) = true
  · rw [if_pos hc]
    have hcond : (∃ i, (sequence.drop i).take 1 = ['Y'])
        ∨ (∃ i, (sequence.drop i).take 3 = ['T', 'A', 'T']) := by
      rcases Bool.or_eq_true_iff.mp hc with h | h
      · exact Or.inl (hY.mp h)
      · exact Or.inr (hT.mp h)
    exact ⟨⟨fun _ => hcond, fun _ => rfl⟩,
      ⟨fun hxx => absurd hxx (by decide), fun hn => absurd hcond hn⟩, Or.inl rfl⟩
  · rw [if_neg hc]
    have hnc : ¬ ((∃ i, (sequence.drop i).take 1 = ['Y'])
        ∨ (∃ i, (sequence.drop i).take 3 = ['T', 'A', 'T'])) := by
      rintro (h | h)
      · exact hc (Bool.or_eq_true_iff.mpr (Or.inl (hY.mpr h)))
      · exact hc (Bool.or_eq_true_iff.mpr (Or.inr (hT.mpr h)))
    exact ⟨⟨fun hxy => absurd hxy (by decide), fun h => absurd h hnc⟩,
      ⟨fun _ => hnc, fun _ => rfl⟩, Or.inr rfl⟩

/-! ## C6 and C10: the random-match probability -/

/-- The probability fold applies the rounded multiplication by the float
0.1 once per non-AMEL marker, so its result depends only on how many
non-AMEL markers the list contains. -/
lemma prob_foldl_iterate : ∀ (l : List String) (x : Nat × ℤ),
    l.foldl (fun probability marker =>
      if marker = "AMEL" then probability else mulF probability freq) x
    = (fun p => mulF p freq)^[(l.filter fun m => decide (m ≠ "AMEL")).length] x := by
  intro l
  induction l with
  | nil => intro x; simp
  | cons y ys ih =>
    intro x
    by_cases hy : y = "AMEL"
    · have hfl : (y :: ys).filter (fun m => decide (m ≠ "AMEL"))
          = ys.filter (fun m => decide (m ≠ "AMEL")) := by
        simp [List.filter_cons, hy]
      rw [List.foldl_cons, if_pos hy, ih, hfl]
    · have hfl : (y :: ys).filter (fun m => decide (m ≠ "AMEL"))
          = y :: ys.filter (fun m => decide (m ≠ "AMEL")) := by
        simp [List.filter_cons, hy]
      rw [List.foldl_cons, if_neg hy, ih, hfl, List.length_cons,
        Function.iterate_succ_apply]

set_option maxRecDepth 40000 in
/-- C6 (the code bug at the failing input): with two non-AMEL markers
the program returns 99, not the claimed floor(1/0.1^2) = 100 — in
binary64 the product 0.1*0.1 rounds to 0.010000000000000002, slightly
above 1/100, its reciprocal rounds to 99.99999999999999, and int()
truncates that to 99. -/
theorem calculate_match_probability_float_bug :
    calculate_match_probability (fun _ => CountVal.num 0) ["A", "B"] = 99
    ∧ Int.floor ((1 : ℚ) / (1/10 : ℚ) ^ 2) = 100
    ∧ calculate_match_probability (fun _ => CountVal.num 0) ["A", "B"]
        ≠ Int.floor ((1 : ℚ) / (1/10 : ℚ) ^ 2) := by
  have h99 : calculate_match_probability (fun _ => CountVal.num 0) ["A", "B"] = 99 := by
    decide
  have h100 : Int.floor ((1 : ℚ) / (1/10 : ℚ) ^ 2) = 100 := by
    have h : ((1 : ℚ) / (1/10 : ℚ) ^ 2) = ((100 : ℤ) : ℚ) := by norm_num
    rw [h, Int.floor_intCast]
  refine ⟨h99, h100, ?_⟩
  rw [h99, h100]
  decide

/-- C10: the probability computation never reads the scanned counts —
any two scanned-count maps give the same returned value — and the value
depends only on the number of non-AMEL markers in the marker list. -/
theorem calculate_match_probability_count_independent
    (markers : List String) (c₁ c₂ : String → CountVal) :
    calculate_match_probability c₁ markers = calculate_match_probability c₂ markers
    ∧ ∀ markers' : List String,
        (markers.filter fun m => decide (m ≠ "AMEL")).length
          = (markers'.filter fun m => decide (m ≠ "AMEL")).length →
        calculate_match_probability c₁ markers
          = calculate_match_probability c₂ markers' := by
  constructor
  · rfl
  · intro markers' hk
    unfold calculate_match_probability
    rw [prob_foldl_iterate markers (1, 0), prob_foldl_iterate markers' (1, 0), hk]

/-- Witness for the C10 theorem: two different count maps and two marker
lists with one non-AMEL marker each give the same estimate. -/
theorem calculate_match_probability_count_independent_witness :
    (calculate_match_probability scanCountsW1 ["AGAT", "AMEL"]
        = calculate_match_probability scanCountsW2 ["AGAT", "AMEL"])
    ∧ (((["AGAT", "AMEL"] : List String).filter fun m => decide (m ≠ "AMEL")).length
        = ((["TPOX"] : List String).filter fun m => decide (m ≠ "AMEL")).length)
    ∧ calculate_match_probability scanCountsW1 ["AGAT", "AMEL"]
        = calculate_match_probability scanCountsW2 ["TPOX"] :=
  ⟨(calculate_match_probability_count_independent ["AGAT", "AMEL"]
      scanCountsW1 scanCountsW2).1,
    by decide,
    (calculate_match_probability_count_independent ["AGAT", "AMEL"]
      scanCountsW1 scanCountsW2).2 ["TPOX"] (by decide)⟩

end DNAIdentifier
